import Mathlib

/-!
# Verification of the multiplayer synchronization layer

A shallow embedding, in Lean 4, of the core of the `procedural-game`
repository: the wire-message codec (`server/message.go`), the user registry
(`server/db.go` and its name-keyed variant), the client transport send path
(`client/client.go`) and the projectile update step (`player/weapon.go`).

Conventions used throughout the embedding:

* Go byte strings are modelled as Lean `String` / `List Char`; where the Go
  code measures the *byte* length of a UTF-8 string (`len(s)`), the model
  sums `Char.utf8Size` over the characters.
* Go `float64` values are modelled as exact rationals (`ℚ`).  All concrete
  float computations appearing in the theorems below involve only small
  dyadic values on which IEEE-754 double arithmetic is exact, so the
  rational model agrees with the Go semantics there.
* `net.Conn` handles are modelled as `Option ℕ` (a socket identifier, or
  `none` for Go's `nil`).  A network write is modelled as an emitted
  *send event* `(socket, message)`; the side-effecting Go functions return
  the list of events they emit, in order.
* Go maps are modelled as association lists together with a
  replace-or-append insertion; map iteration is modelled as iteration over
  the list.  (Go's map iteration order is unspecified; every property
  proved below is insensitive to the iteration order.)
-/

set_option maxRecDepth 4096

namespace ProceduralGame

/-! ## The message envelope (`server/message.go`)

```go
type Message struct {
    Type  string `json:"t"`
    Value string `json:"v"`
}
```
-/

/-- `Message` from `server/message.go`: a typed envelope with a kind tag
(Go field `Type`, JSON key `"t"`; named `Ty` here because Lean reserves
`Type`) and an opaque payload (`Value`, JSON key `"v"`). -/
structure Message where
  Ty : String
  Value : String
deriving DecidableEq, Repr

/-- The `0x7b` opening-brace byte of the JSON envelope. -/
def lbrace : Char := Char.ofNat 123

/-- The `0x7d` closing-brace byte of the JSON envelope. -/
def rbrace : Char := Char.ofNat 125

/-- `Message.Pack` from `server/message.go`: renders the envelope by raw
string concatenation and appends the `'\n'` frame delimiter.  The `Type` and
`Value` strings are copied verbatim — the Go code performs no escaping. -/
def Message.Pack (m : Message) : List Char :=
  [lbrace, '"', 't', '"', ':', '"'] ++ m.Ty.data
    ++ ['"', ',', '"', 'v', '"', ':', '"'] ++ m.Value.data
    ++ ['"', rbrace, '\n']

/-! ## The receive-side frame decoder

On the client (`client/client.go`) a frame is consumed by
`bufio.Reader.ReadString('\n')` — everything up to and including the first
newline — and then decoded by `encoding/json.Unmarshal` into a `Message`.
The two stdlib functions are modelled below on the fragment of their input
space exercised by this protocol. -/

/-- Models `bufio.Reader.ReadString('\n')`: the prefix of the stream up to
and including the first `'\n'`, or `none` (a read error) when the stream
holds no delimiter. -/
def readFrame : List Char → Option (List Char)
  | [] => none
  | c :: rest =>
    if c = '\n' then some [c] else (readFrame rest).map (fun l => c :: l)

/-- Models the scan of a JSON string literal body by `encoding/json` for
literals that contain no escape sequence: consumes characters up to the
closing quote.  A backslash or a control character makes the model bail out
with `none` (Go would respectively start an escape sequence or reject the
literal; neither case is exercised by the theorems below). -/
def readStringBody : List Char → Option (List Char × List Char)
  | [] => none
  | c :: rest =>
    if c = '"' then some ([], rest)
    else if c = '\\' ∨ c.toNat < 32 then none
    else (readStringBody rest).map (fun p => (c :: p.1, p.2))

/-- JSON insignificant whitespace, as accepted by `encoding/json` after the
top-level value (the trailing `'\n'` of a frame falls here). -/
def isJsonWs (c : Char) : Bool :=
  c = ' ' ∨ c = '\t' ∨ c = '\n' ∨ c = '\r'

/-- Consumes an expected literal token sequence from the head of the
input, yielding the remainder. -/
def stripPre : List Char → List Char → Option (List Char)
  | [], cs => some cs
  | _ :: _, [] => none
  | p :: ps, c :: cs => if c = p then stripPre ps cs else none

/-- Models `encoding/json.Unmarshal` of a frame into `Message`, restricted
to the exact token shape produced by `Message.Pack`:
`\x7b"t":<string>,"v":<string>\x7d` followed by whitespace.  Inputs outside
this shape (reordered keys, interior whitespace, escape sequences) yield
`none`; no theorem below depends on the decoder's behaviour there. -/
def parseEnvelope (cs : List Char) : Option Message :=
  match stripPre [lbrace, '"', 't', '"', ':', '"'] cs with
  | none => none
  | some r₁ =>
    match readStringBody r₁ with
    | none => none
    | some (tcs, r₂) =>
      match stripPre [',', '"', 'v', '"', ':', '"'] r₂ with
      | none => none
      | some r₃ =>
        match readStringBody r₃ with
        | none => none
        | some (vcs, r₄) =>
          match stripPre [rbrace] r₄ with
          | none => none
          | some r₅ =>
            if r₅.all isJsonWs then some ⟨⟨tcs⟩, ⟨vcs⟩⟩ else none

/-- The full receive path applied to the head of a byte stream: cut one
frame at the first newline, then JSON-decode it into a `Message`. -/
def decodeFrame (cs : List Char) : Option Message :=
  (readFrame cs).bind parseEnvelope

/-- A character that the codec transports transparently: not a control
character (in particular not the `'\n'` frame delimiter), not `'"'` and not
`'\\'`.  Every payload character of the protocol's catalogued messages
(usernames, decimal numerals, `'|'`/`'/'` separators, duration text) is
plain in this sense. -/
def plainChar (c : Char) : Bool :=
  32 ≤ c.toNat ∧ c ≠ '"' ∧ c ≠ '\\'

/-- A string all of whose characters are `plainChar`. -/
def plainStr (s : String) : Bool :=
  s.data.all plainChar

/-! ## Payload parsing (`Message.Unpack`, `server/message.go`)

`Unpack` splits the payload on `'|'` and parses the resulting scalar fields
with `strconv.ParseFloat` / `ParseInt` / `ParseUint` and
`time.ParseDuration`.  Those four Go standard library parsers are modelled
below on the plain-decimal fragment of their grammars; the doc comment of
each model states the fragment covered. -/

/-- Numeric value of a (possibly empty) list of ASCII digits. -/
def digitsVal (cs : List Char) : ℕ :=
  cs.foldl (fun a c => a * 10 + (c.toNat - 48)) 0

/-- Parses a non-empty all-digit string to its value; `none` otherwise. -/
def parseNatDigits (cs : List Char) : Option ℕ :=
  if cs.isEmpty then none
  else if cs.all Char.isDigit then some (digitsVal cs) else none

/-- Strips an optional leading sign, returning whether it was `'-'`. -/
def splitSign : List Char → Bool × List Char
  | '-' :: rest => (true, rest)
  | '+' :: rest => (false, rest)
  | cs => (false, cs)

/-- Parses an unsigned decimal numeral with an optional fractional part
(at least one digit overall) to an exact rational. -/
def parseDecimalMag (cs : List Char) : Option ℚ :=
  let ip := cs.takeWhile (fun c => c ≠ '.')
  match cs.dropWhile (fun c => c ≠ '.') with
  | [] => (parseNatDigits ip).map (fun n => (n : ℚ))
  | _ :: frac =>
    if ip.isEmpty ∧ frac.isEmpty then none
    else if ip.all Char.isDigit ∧ frac.all Char.isDigit then
      some ((digitsVal ip : ℚ) + (digitsVal frac : ℚ) / 10 ^ frac.length)
    else none

/-- Models `strconv.ParseFloat(s, 64)` on plain decimal numerals
(`[+-]?digits[.digits]`), as an exact rational.  Go additionally accepts
exponents, hex floats, `Inf`/`NaN` and digit-group underscores, and rounds
to the nearest `float64`; no theorem below touches those cases. -/
def goParseFloat (s : String) : Option ℚ :=
  let (neg, mag) := splitSign s.data
  (parseDecimalMag mag).map (fun q => if neg then -q else q)

/-- Models `strconv.ParseUint(s, 10, 64)`: a non-empty unsigned digit
string whose value fits in 64 bits. -/
def goParseUint (s : String) : Option ℕ :=
  (parseNatDigits s.data).bind (fun n => if n < 2 ^ 64 then some n else none)

/-- Models `strconv.ParseInt(s, 10, 64)`: an optionally signed digit string
whose value fits in a signed 64-bit integer. -/
def goParseInt (s : String) : Option ℤ :=
  let (neg, mag) := splitSign s.data
  (parseNatDigits mag).bind (fun n =>
    let v : ℤ := if neg then -(n : ℤ) else (n : ℤ)
    if -(2 ^ 63) ≤ v ∧ v ≤ 2 ^ 63 - 1 then some v else none)

/-- Nanosecond multiplier of a Go duration unit suffix (`µs` omitted). -/
def durUnitMult : List Char → Option ℤ
  | ['n', 's'] => some 1
  | ['u', 's'] => some 1000
  | ['m', 's'] => some 1000000
  | ['s'] => some 1000000000
  | ['m'] => some 60000000000
  | ['h'] => some 3600000000000
  | _ => none

/-- Models `time.ParseDuration` on a single unsigned integer component with
a unit suffix (e.g. `"5s"`, `"100ms"`), plus the bare-zero form `"0"`.
Go's full grammar also allows a sign, fractional parts and several
concatenated components; no theorem below touches those cases. -/
def goParseDuration (s : String) : Option ℤ :=
  if s = "0" then some 0
  else
    let ds := s.data.takeWhile Char.isDigit
    match parseNatDigits ds, durUnitMult (s.data.dropWhile Char.isDigit) with
    | some n, some mult => some ((n : ℤ) * mult)
    | _, _ => none

/-- A value stored in an `UnpackedMessage` map: the Go code stores Go
strings, `pixel.Vec` positions, `float64`s, `uint64`s, `time.Time` values
(`timeVal`, in nanoseconds since the epoch — `time.Unix(0, n)`) and
`time.Duration` values (`durVal`, in nanoseconds). -/
inductive FieldVal where
  | str (s : String)
  | vec (x y : ℚ)
  | num (q : ℚ)
  | uint (n : ℕ)
  | timeVal (ns : ℤ)
  | durVal (ns : ℤ)
deriving DecidableEq, Repr

/-- `UnpackedMessage` (a Go `map[string]interface\x7b\x7d`), modelled as an
association list in insertion order. -/
abbrev UnpackedMessage := List (String × FieldVal)

/-- Replace-or-append insertion, modelling a Go map assignment `m[k] = v`. -/
def setKey {α : Type} (k : String) (v : α) : List (String × α) → List (String × α)
  | [] => [(k, v)]
  | (k₁, v₁) :: rest =>
    if k₁ = k then (k, v) :: rest else (k₁, v₁) :: setKey k v rest

/-- Models `strings.Split(s, "|")` from the Go standard library: splits on
every `'|'`; the empty string yields `[""]` and `n` pipes yield `n + 1`
components. -/
def splitPipe : List Char → List String
  | [] => [""]
  | c :: rest =>
    let r := splitPipe rest
    if c = '|' then "" :: r
    else
      match r with
      | [] => [⟨[c]⟩]
      | s :: ss => ⟨c :: s.data⟩ :: ss

/-- `UnpackVitals` from `server/message.go`: expects exactly five `'|'`
components `name|x|y|rot|health`, parsing `x`, `y`, `rot` as floats and
`health` as an unsigned integer. -/
def UnpackVitals : List String → Except String UnpackedMessage
  | [name, xs, ys, rots, healths] =>
    match goParseFloat xs with
    | none => .error "failed to parse X"
    | some x =>
      match goParseFloat ys with
      | none => .error "failed to parse Y"
      | some y =>
        match goParseFloat rots with
        | none => .error "failed to parse rot"
        | some rot =>
          match goParseUint healths with
          | none => .error "failed to parse health"
          | some health =>
            .ok [("name", .str name), ("pos", .vec x y),
                 ("rot", .num rot), ("health", .uint health)]
  | _ => .error "incorrect vitals component count"

/-- `Message.Unpack` from `server/message.go`: splits the payload on `'|'`
and dispatches on the message kind.  Only `vitals`,
`register_success`/`connect_success` and `create_projectile` are handled;
every other kind falls through to the `unsupported message type` error.
(The `"failed to parse health"` text on a bad `create_projectile` spawn
time reproduces the error string used by the source at that branch.) -/
def Message.Unpack (m : Message) : Except String UnpackedMessage :=
  let components := splitPipe m.Value.data
  match m.Ty with
  | "vitals" => UnpackVitals components
  | "register_success" | "connect_success" =>
    match components with
    | seed :: rest =>
      if rest.length ≠ 5 then
        .error "incorrect register_success component count"
      else
        match UnpackVitals rest with
        | .error e => .error e
        | .ok unpacked => .ok (setKey "seed" (.str seed) unpacked)
    | [] => .error "incorrect register_success component count"
  | "create_projectile" =>
    match components with
    | [spawnTimes, startXs, startYs, ttls, velXs, velYs] =>
      match goParseInt spawnTimes with
      | none => .error "failed to parse health"
      | some spawnTime =>
        match goParseFloat startXs with
        | none => .error "failed to parse startX"
        | some startX =>
          match goParseFloat startYs with
          | none => .error "failed to parse startY"
          | some startY =>
            match goParseDuration ttls with
            | none => .error "failed to parse ttl"
            | some ttl =>
              match goParseFloat velXs with
              | none => .error "failed to parse velX"
              | some velX =>
                match goParseFloat velYs with
                | none => .error "failed to parse velY"
                | some velY =>
                  .ok [("spawnTime", .timeVal spawnTime),
                       ("startX", .num startX), ("startY", .num startY),
                       ("ttl", .durVal ttl),
                       ("velX", .num velX), ("velY", .num velY)]
    | _ => .error "incorrect create_projectile component count"
  | ty => .error ("unsupported message type supplied: " ++ ty)

/-! ## The user registry (name-keyed `server/db.go`)

The registry source is the name-keyed variant of `db.go` (the one declaring
`MinUsernameLength = 5` / `MaxUsernameLength = 12` and keying
`map[string]User` by username).  The `sync.RWMutex` serialises each
operation; the model therefore treats every operation as one atomic step on
the registry value.  A `net.Conn` is an `Option ℕ` handle and a write to a
connection is an emitted `SendEvent`. -/

/-- One network delivery: the socket written to, and the message (whose
JSON-marshalled bytes plus `'\n'` are what `User.Send` actually writes). -/
abbrev SendEvent := ℕ × Message

/-- `User` from the name-keyed `db.go`: a persistent user record with a
nullable connection handle. -/
structure User where
  conn : Option ℕ
  name : String
  blocked : Bool
  posRotStr : String
deriving DecidableEq, Repr

/-- `User.Send`: a no-op when the connection handle is `nil`, otherwise one
write of the marshalled message to the user's connection.  (`json.Marshal`
of the two-string `Message` struct cannot fail, and a failed socket write
is logged and swallowed, so `Send` never reports an error either way.) -/
def User.Send (u : User) (msg : Message) : List SendEvent :=
  match u.conn with
  | none => []
  | some c => [(c, msg)]

/-- `UserDB.users`, the Go `map[string]User`, as an association list. -/
structure UserDB where
  users : List (String × User)
deriving DecidableEq, Repr

/-- Map lookup (a Go `m[k]` read), by key equality. -/
def getKey {α : Type} (k : String) : List (String × α) → Option α
  | [] => none
  | (k₁, v₁) :: rest => if k₁ = k then some v₁ else getKey k rest

/-- `UserDB.Get`: map lookup under the read lock. -/
def UserDB.Get (d : UserDB) (username : String) : Option User :=
  getKey username d.users

/-- `UserDB.Update`: unconditionally stores `user` under `user.name` under
the write lock (`d.users[user.name] = user`). -/
def UserDB.Update (d : UserDB) (user : User) : UserDB :=
  ⟨setKey user.name user d.users⟩

/-- The body of `UserDB.Broadcast`'s *inner* loop for one user, exactly as
written in the source:

```go
for _, name := range excludeUserNames \x7b
    if user.name == name \x7b
        continue
    \x7d
    user.Send(msg)
\x7d
```

Note that `user.Send(msg)` sits inside the loop over the exclusion names
and the `continue` skips a single exclusion name, so the user is sent the
message once per non-matching exclusion name — not once overall. -/
def User.sendPerExclusion (u : User) (msg : Message) :
    List String → List SendEvent
  | [] => []
  | name :: rest =>
    if u.name = name then u.sendPerExclusion msg rest
    else u.Send msg ++ u.sendPerExclusion msg rest

/-- `UserDB.Broadcast`: iterates over every registry record and runs the
nested exclusion loop for each.  (Go map iteration order is unspecified;
the list order stands in for it, and every property proved below counts
deliveries per recipient, which is order-insensitive.) -/
def UserDB.Broadcast (d : UserDB) (msg : Message)
    (excludeUserNames : List String) : List SendEvent :=
  (d.users.map (fun kv => kv.2.sendPerExclusion msg excludeUserNames)).flatten

/-- `MinUsernameLength` from the source. -/
def MinUsernameLength : ℕ := 5

/-- `MaxUsernameLength` from the source. -/
def MaxUsernameLength : ℕ := 12

/-- Go `len(s)` on a string: its UTF-8 byte length. -/
def utf8Len (s : String) : ℕ :=
  (s.data.map Char.utf8Size).sum

/-- Models `unicode.IsLetter` from the Go standard library on the Basic
Latin and Latin-1 Supplement blocks (code points up to `U+00FF`): the ASCII
letters plus `ª`, `µ`, `º` and `À`–`ÿ` without `×` and `÷`.  Code points
above `U+00FF` are outside the modelled range (the theorems about the
registry restrict usernames to this range). -/
def goIsLetter (c : Char) : Bool :=
  c.isAlpha || c.toNat == 0xAA || c.toNat == 0xB5 || c.toNat == 0xBA ||
    (decide (0xC0 ≤ c.toNat) && decide (c.toNat ≤ 0xFF) &&
      c.toNat != 0xD7 && c.toNat != 0xF7)

/-- Models `unicode.IsNumber` from the Go standard library on code points
up to `U+00FF`: the ASCII digits plus the Latin-1 numeric characters
`²`, `³`, `¹`, `¼`, `½`, `¾`. -/
def goIsNumber (c : Char) : Bool :=
  c.isDigit || c.toNat == 0xB2 || c.toNat == 0xB3 || c.toNat == 0xB9 ||
    c.toNat == 0xBC || c.toNat == 0xBD || c.toNat == 0xBE

/-- The per-rune username test from `UserDB.Create`:
`unicode.IsLetter(r) || unicode.IsNumber(r) || r == '_' || r == '-'`. -/
def validUsernameChar (c : Char) : Bool :=
  goIsLetter c || goIsNumber c || c == '_' || c == '-'

/-- Go `fmt.Sprintf("%f", float64(n))` for a whole number `n`: six zero
decimals are appended. -/
def formatF (n : ℕ) : String :=
  toString n ++ ".000000"

/-- `UserDB.Create` from the name-keyed `db.go`.  The two draws of
`d.rand.Intn(8000)` are passed in as `r1`, `r2` (reduced modulo 8000, as
`Intn` guarantees).  Validation — byte length bounds, per-rune charset,
then a scan of existing records for the name — happens before any state
change; only the success path inserts.  (The Go function also returns the
un-inserted `newUser` value alongside an error; the model keeps just the
error, since no caller uses that value on failure.) -/
def UserDB.Create (d : UserDB) (username : String) (conn r1 r2 : ℕ) :
    Except String User × UserDB :=
  if utf8Len username < MinUsernameLength then
    (.error "username must have a minimum length of 5 characters", d)
  else if utf8Len username > MaxUsernameLength then
    (.error "username length must not exceed 12 characters", d)
  else if ¬ username.data.all validUsernameChar then
    (.error "username can only contain letters, numbers, underscores and hyphens", d)
  else if d.users.any (fun kv => kv.2.name = username) then
    (.error "username already taken", d)
  else
    let newUser : User :=
      { conn := some conn, name := username, blocked := false,
        posRotStr :=
          formatF (r1 % 8000) ++ "|" ++ formatF (r2 % 8000) ++ "|0.000000" }
    (.ok newUser, ⟨setKey username newUser d.users⟩)

/-- `UserDB.Connect` from the name-keyed `db.go`: fails when the name has
no record, fails (leaving the stored record untouched) when the record
already holds a connection, and otherwise stores the record with the new
connection attached and returns it. -/
def UserDB.Connect (d : UserDB) (username : String) (conn : ℕ) :
    Except String User × UserDB :=
  match getKey username d.users with
  | none => (.error "user not found in DB", d)
  | some user =>
    match user.conn with
    | some _ => (.error "user already connected", d)
    | none =>
      let user' : User := { user with conn := some conn }
      (.ok user', ⟨setKey username user' d.users⟩)

/-- `UserDB.Disconnect` from the name-keyed `db.go`: stores the record with
its connection handle cleared, then broadcasts a `disconnect` message
naming the user, excluding the user's own name. -/
def UserDB.Disconnect (d : UserDB) (user : User) : UserDB × List SendEvent :=
  let cleared : User := { user with conn := none }
  let d' : UserDB := ⟨setKey cleared.name cleared d.users⟩
  (d', d'.Broadcast ⟨"disconnect", user.name⟩ [user.name])

/-- One registry call, for stating properties of call sequences. -/
inductive DBOp where
  | create (username : String) (conn r1 r2 : ℕ)
  | connect (username : String) (conn : ℕ)
  | disconnect (user : User)
deriving DecidableEq, Repr

/-- The registry state reached after one call (send events discarded). -/
def applyOp (d : UserDB) : DBOp → UserDB
  | .create username conn r1 r2 => (d.Create username conn r1 r2).2
  | .connect username conn => (d.Connect username conn).2
  | .disconnect user => (d.Disconnect user).1

/-- The registry state reached after a sequence of calls. -/
def applyOps (d : UserDB) (ops : List DBOp) : UserDB :=
  ops.foldl applyOp d

/-- The live connection handles bound to `username` in the registry. -/
def connsBoundTo (d : UserDB) (username : String) : List ℕ :=
  d.users.filterMap (fun kv => if kv.1 = username then kv.2.conn else none)

/-- Counts the deliveries to socket `c` in a list of send events. -/
def countSends (events : List SendEvent) (c : ℕ) : ℕ :=
  events.countP (fun e => e.1 = c)

/-! ## The client transport send path (`client/client.go`) -/

/-- `maxSendFails` from `client/client.go`. -/
def maxSendFails : ℕ := 10

/-- The client transport state touched by `Send`: the consecutive
write-failure counter (a Go `uint`, hence arithmetic modulo `2^64`). -/
structure ClientState where
  sendFailCounter : ℕ
deriving DecidableEq, Repr

/-- `Send` from `client/client.go`, parameterised by whether the underlying
`conn.Write` succeeds (the socket is outside the model).  Returns the new
state and whether the failure branch called `Disconnect()`.  On a write
failure the counter is incremented and `Disconnect` is triggered exactly
when the incremented counter has reached `maxSendFails`; on a successful
write the counter is reset to zero. -/
def clientSend (st : ClientState) (writeOk : Bool) : ClientState × Bool :=
  if writeOk then ({ st with sendFailCounter := 0 }, false)
  else
    let c := (st.sendFailCounter + 1) % 2 ^ 64
    ({ st with sendFailCounter := c }, decide (c ≥ maxSendFails))

/-! ## Projectiles (`player/weapon.go`) -/

/-- A 2D vector (`pixel.Vec`), with exact-rational components. -/
abbrev Vec := ℚ × ℚ

/-- `pixel.Vec.Add`. -/
def vecAdd (a b : Vec) : Vec := (a.1 + b.1, a.2 + b.2)

/-- `pixel.Vec.Scaled`. -/
def vecScaled (a : Vec) (k : ℚ) : Vec := (a.1 * k, a.2 * k)

/-- `Projectile` from `player/weapon.go`.  Times are nanosecond counts
(`spawnTime` a `time.Time` instant, `ttl` a `time.Duration`). -/
structure Projectile where
  startPos : Vec
  pos : Vec
  velocity : Vec
  spawnTime : ℤ
  ttl : ℤ
deriving DecidableEq, Repr

/-- The `timeAlive` computation from `Player.Update`:
`float64(now.Sub(p.spawnTime)/time.Millisecond) / 100` — the elapsed
nanoseconds are integer-divided (truncating toward zero, as Go `int64`
division does) by `10^6` to whole milliseconds, converted to `float64`,
and divided by `100`. -/
def timeAlive (now spawnTime : ℤ) : ℚ :=
  (((now - spawnTime).tdiv 1000000 : ℤ) : ℚ) / 100

/-- The projectile pass of `Player.Update` from `player/weapon.go`: a
projectile is retained exactly when `now` is not after `spawnTime + ttl`,
and each retained projectile's `pos` is recomputed from scratch as
`startPos + velocity × timeAlive` (the stale `pos` value is never read). -/
def updateProjectiles (now : ℤ) (ps : List Projectile) : List Projectile :=
  ps.foldr
    (fun p acc =>
      if now > p.spawnTime + p.ttl then acc
      else
        { p with
          pos := vecAdd p.startPos (vecScaled p.velocity (timeAlive now p.spawnTime)) }
          :: acc)
    []

/-! ## Auxiliary definitions used by the statements -/

/-- Whether an `Except` result is an error. -/
def isErr {α : Type} : Except String α → Bool
  | .error _ => true
  | .ok _ => false

/-- Decidable equality of `Except` results, for the concrete witnesses. -/
instance {ε α : Type} [DecidableEq ε] [DecidableEq α] :
    DecidableEq (Except ε α) := fun a b =>
  match a, b with
  | .error e₁, .error e₂ =>
    if h : e₁ = e₂ then .isTrue (by rw [h])
    else .isFalse (by intro hc; cases hc; exact h rfl)
  | .ok a₁, .ok a₂ =>
    if h : a₁ = a₂ then .isTrue (by rw [h])
    else .isFalse (by intro hc; cases hc; exact h rfl)
  | .error _, .ok _ => .isFalse (by intro hc; cases hc)
  | .ok _, .error _ => .isFalse (by intro hc; cases hc)

/-- Well-formedness of the registry model: association-list keys are
distinct, as they are in a Go map.  (`⟨[]⟩`, the state `Start` creates with
`make(map[string]User)`, is well-formed, and every registry operation
preserves well-formedness.) -/
@[reducible]
def dbWF (d : UserDB) : Prop :=
  (d.users.map Prod.fst).Nodup

/-- A connected sample user, for the concrete counterexamples. -/
def aliceRec : User :=
  { conn := some 0, name := "alice1", blocked := false, posRotStr := "" }

/-- A second connected sample user. -/
def bobRec : User :=
  { conn := some 1, name := "bob22", blocked := false, posRotStr := "" }

/-- A registry holding only `aliceRec`. -/
def dbAlice : UserDB := ⟨[("alice1", aliceRec)]⟩

/-- A registry holding `aliceRec` and `bobRec`. -/
def dbAliceBob : UserDB := ⟨[("alice1", aliceRec), ("bob22", bobRec)]⟩

/-- The projectile of the spec's determinism property: start `(0,0)`,
velocity `(10,0)`, ttl 5 s (in nanoseconds), spawned at instant 0. -/
def proj0 : Projectile :=
  { startPos := (0, 0), pos := (0, 0), velocity := (10, 0),
    spawnTime := 0, ttl := 5000000000 }

/-! ## Codec lemmas -/

/-- A plain character is not the frame delimiter. -/
theorem not_newline_of_plain (l : List Char) (h : l.all plainChar = true) :
    '\n' ∉ l := by
  intro hm
  have h₁ := List.all_eq_true.mp h _ hm
  simp [plainChar] at h₁

/-- `ReadString('\n')` returns a newline-terminated stream whole when the
body holds no interior newline. -/
theorem readFrame_terminated (A : List Char) (h : '\n' ∉ A) :
    readFrame (A ++ ['\n']) = some (A ++ ['\n']) := by
  induction A with
  | nil => simp [readFrame]
  | cons c rest ih =>
    have hc : ¬ c = '\n' := fun hc => h (hc ▸ List.mem_cons_self c rest)
    have h' : '\n' ∉ rest := fun hm => h (List.mem_cons_of_mem _ hm)
    simp [readFrame, hc, ih h']

/-- Stripping a literal token sequence off an input that starts with it. -/
theorem stripPre_append (pre rest : List Char) :
    stripPre pre (pre ++ rest) = some rest := by
  induction pre with
  | nil => simp [stripPre]
  | cons p ps ih => simp [stripPre, ih]

/-- Scanning a JSON string literal whose body is plain consumes exactly the
body and its closing quote. -/
theorem readStringBody_append (T R : List Char) (h : T.all plainChar = true) :
    readStringBody (T ++ '"' :: R) = some (T, R) := by
  induction T with
  | nil => simp [readStringBody]
  | cons c cs ih =>
    have h₁ : plainChar c = true := (List.all_cons .. ▸ h |> Bool.and_elim_left)
    have h₂ : cs.all plainChar = true := (List.all_cons .. ▸ h |> Bool.and_elim_right)
    have hp : 32 ≤ c.toNat ∧ c ≠ '"' ∧ c ≠ '\\' := by
      simpa [plainChar] using h₁
    have hctrl : ¬ c.toNat < 32 := by omega
    simp [readStringBody, hp.2.1, hp.2.2, hctrl, ih h₂]

/-- The receive path inverts `Pack` for messages whose kind and payload are
plain (no quote, backslash or control character). -/
theorem decodeFrame_pack (m : Message)
    (hT : plainStr m.Ty = true) (hV : plainStr m.Value = true) :
    decodeFrame m.Pack = some m := by
  have hTa : m.Ty.data.all plainChar = true := hT
  have hVa : m.Value.data.all plainChar = true := hV
  have hA : '\n' ∉ [lbrace, '"', 't', '"', ':', '"'] ++ m.Ty.data
      ++ ['"', ',', '"', 'v', '"', ':', '"'] ++ m.Value.data
      ++ ['"', rbrace] := by
    intro hm
    rcases List.mem_append.mp hm with hm' | hm'
    · rcases List.mem_append.mp hm' with hm'' | hm''
      · rcases List.mem_append.mp hm'' with hm₃ | hm₃
        · rcases List.mem_append.mp hm₃ with hm₄ | hm₄
          · revert hm₄; decide
          · exact not_newline_of_plain _ hTa hm₄
        · revert hm₃; decide
      · exact not_newline_of_plain _ hVa hm''
    · revert hm'; decide
  have hsplit : m.Pack = ([lbrace, '"', 't', '"', ':', '"'] ++ m.Ty.data
      ++ ['"', ',', '"', 'v', '"', ':', '"'] ++ m.Value.data
      ++ ['"', rbrace]) ++ ['\n'] := by
    simp [Message.Pack]
  rw [decodeFrame, hsplit, readFrame_terminated _ hA, Option.some_bind]
  have hshape : ([lbrace, '"', 't', '"', ':', '"'] ++ m.Ty.data
      ++ ['"', ',', '"', 'v', '"', ':', '"'] ++ m.Value.data
      ++ ['"', rbrace]) ++ ['\n']
      = [lbrace, '"', 't', '"', ':', '"'] ++ (m.Ty.data
        ++ '"' :: ([',', '"', 'v', '"', ':', '"'] ++ (m.Value.data
          ++ '"' :: ([rbrace] ++ ['\n'])))) := by
    simp
  rw [hshape]
  simp only [parseEnvelope, stripPre_append, readStringBody_append _ _ hTa,
    readStringBody_append _ _ hVa]
  simp [isJsonWs]

/-- Claim C2 (counterexample): `connect` is a catalogued message kind with a
valid username payload, and the decode path recovers the packed envelope
intact, yet `Unpack` rejects it — `Unpack` handles only `vitals`,
`register_success`/`connect_success` and `create_projectile`, so the
round-trip does not yield the original kind's field values for the other
catalogued kinds. -/
theorem unpack_rejects_connect_kind :
    Message.Unpack ⟨"connect", "alice1"⟩ =
      .error "unsupported message type supplied: connect" ∧
    decodeFrame (Message.Pack ⟨"connect", "alice1"⟩) =
      some ⟨"connect", "alice1"⟩ := by
  exact ⟨by decide, decodeFrame_pack _ (by decide) (by decide)⟩

/-- Claim C2 (amended): for every message that `Unpack` accepts — the kinds
`vitals`, `register_success`/`connect_success`, `create_projectile` with
well-formed payload fields — and whose kind and payload strings are plain
(no quote, backslash or control character; every valid field value of those
kinds is), packing, splitting on the frame delimiter and JSON-decoding
recovers exactly the original message, and `Unpack` applied to the decoded
message yields exactly the original field values. -/
theorem pack_decode_preserves_unpack (m : Message) (fields : UnpackedMessage)
    (hT : plainStr m.Ty = true) (hV : plainStr m.Value = true)
    (hU : m.Unpack = .ok fields) :
    decodeFrame m.Pack = some m ∧
    (decodeFrame m.Pack).map Message.Unpack = some (Except.ok fields) := by
  have h := decodeFrame_pack m hT hV
  exact ⟨h, by rw [h, Option.map_some', hU]⟩

/-- Witness for the C2 amended theorem at a concrete `vitals` message. -/
theorem pack_decode_preserves_unpack_witness :
    plainStr "vitals" = true ∧ plainStr "alice|1|2|0|100" = true ∧
    Message.Unpack ⟨"vitals", "alice|1|2|0|100"⟩ =
      .ok [("name", .str "alice"), ("pos", .vec 1 2),
           ("rot", .num 0), ("health", .uint 100)] ∧
    decodeFrame (Message.Pack ⟨"vitals", "alice|1|2|0|100"⟩) =
      some ⟨"vitals", "alice|1|2|0|100"⟩ :=
  ⟨by decide, by decide, by decide,
    (pack_decode_preserves_unpack ⟨"vitals", "alice|1|2|0|100"⟩
      [("name", .str "alice"), ("pos", .vec 1 2),
       ("rot", .num 0), ("health", .uint 100)]
      (by decide) (by decide) (by decide)).1⟩

/-- Claim C7 (counterexample): `Pack` copies the payload verbatim, so a
payload containing the frame delimiter yields a frame with two newline
bytes — the serialized payload *can* contain the frame delimiter. -/
theorem pack_payload_newline_leaks :
    (Message.Pack ⟨"vitals", "a\nb"⟩).count '\n' = 2 := by decide

/-- Claim C7 (amended): for every message whose kind and payload contain no
newline byte — which includes every payload the protocol's catalogued
message kinds produce — the bytes produced by `Pack` end with exactly one
frame-delimiter byte and contain no other newline byte. -/
theorem pack_single_delimiter (m : Message)
    (hT : '\n' ∉ m.Ty.data) (hV : '\n' ∉ m.Value.data) :
    (Message.Pack m).count '\n' = 1 ∧
    ∃ A, Message.Pack m = A ++ ['\n'] ∧ '\n' ∉ A := by
  have hA : '\n' ∉ [lbrace, '"', 't', '"', ':', '"'] ++ m.Ty.data
      ++ ['"', ',', '"', 'v', '"', ':', '"'] ++ m.Value.data
      ++ ['"', rbrace] := by
    intro hm
    rcases List.mem_append.mp hm with hm' | hm'
    · rcases List.mem_append.mp hm' with hm'' | hm''
      · rcases List.mem_append.mp hm'' with hm₃ | hm₃
        · rcases List.mem_append.mp hm₃ with hm₄ | hm₄
          · revert hm₄; decide
          · exact hT hm₄
        · revert hm₃; decide
      · exact hV hm''
    · revert hm'; decide
  have hsplit : m.Pack = ([lbrace, '"', 't', '"', ':', '"'] ++ m.Ty.data
      ++ ['"', ',', '"', 'v', '"', ':', '"'] ++ m.Value.data
      ++ ['"', rbrace]) ++ ['\n'] := by
    simp [Message.Pack]
  constructor
  · rw [hsplit, List.count_append, List.count_eq_zero.mpr hA]
    decide
  · exact ⟨_, hsplit, hA⟩

/-- Witness for the C7 amended theorem at a concrete `user_joined`
message. -/
theorem pack_single_delimiter_witness :
    '\n' ∉ ("user_joined" : String).data ∧
    '\n' ∉ ("alice1" : String).data ∧
    (Message.Pack ⟨"user_joined", "alice1"⟩).count '\n' = 1 :=
  ⟨by decide, by decide,
    (pack_single_delimiter ⟨"user_joined", "alice1"⟩
      (by decide) (by decide)).1⟩

/-! ## Registry lemmas -/

/-- Looking up the key just written returns the value written. -/
theorem getKey_setKey_self {α : Type} (k : String) (v : α)
    (l : List (String × α)) : getKey k (setKey k v l) = some v := by
  induction l with
  | nil => simp [setKey, getKey]
  | cons kv rest ih =>
    cases kv with
    | mk k₁ v₁ =>
      by_cases h : k₁ = k
      · subst h; simp [setKey, getKey]
      · simp [setKey, getKey, h, ih]

/-- Writing one key leaves every other key's binding unchanged. -/
theorem getKey_setKey_other {α : Type} (k k' : String) (v : α)
    (l : List (String × α)) (h : ¬ k = k') :
    getKey k' (setKey k v l) = getKey k' l := by
  induction l with
  | nil => simp [setKey, getKey, h]
  | cons kv rest ih =>
    cases kv with
    | mk k₁ v₁ =>
      by_cases h₁ : k₁ = k
      · subst h₁; simp [setKey, getKey, h]
      · simp [setKey, getKey, h₁, ih]

/-- Writing the same binding twice equals writing it once. -/
theorem setKey_idem {α : Type} (k : String) (v : α) (l : List (String × α)) :
    setKey k v (setKey k v l) = setKey k v l := by
  induction l with
  | nil => simp [setKey]
  | cons kv rest ih =>
    cases kv with
    | mk k₁ v₁ =>
      by_cases h₁ : k₁ = k
      · simp [setKey, h₁]
      · simp [setKey, h₁, ih]

/-- Writing an absent key appends the binding. -/
theorem setKey_append_of_getKey_none {α : Type} (k : String) (v : α)
    (l : List (String × α)) (h : getKey k l = none) :
    setKey k v l = l ++ [(k, v)] := by
  induction l with
  | nil => simp [setKey]
  | cons kv rest ih =>
    cases kv with
    | mk k₁ v₁ =>
      by_cases h₁ : k₁ = k
      · subst h₁; simp [getKey] at h
      · simp [getKey, h₁] at h
        simp [setKey, h₁, ih h]

/-- A key in the written map is the written key or a key of the old map. -/
theorem mem_keys_setKey {α : Type} (k x : String) (v : α)
    (l : List (String × α)) (h : x ∈ (setKey k v l).map Prod.fst) :
    x = k ∨ x ∈ l.map Prod.fst := by
  induction l with
  | nil => simpa [setKey] using h
  | cons kv rest ih =>
    cases kv with
    | mk k₁ v₁ =>
      by_cases h₁ : k₁ = k
      · subst h₁
        rcases (by simpa [setKey] using h : x = k₁ ∨ x ∈ rest.map Prod.fst)
          with h' | h'
        · exact Or.inl h'
        · exact Or.inr (by simp [h'])
      · rcases (by simpa [setKey, h₁] using h :
            x = k₁ ∨ x ∈ (setKey k v rest).map Prod.fst) with h' | h'
        · exact Or.inr (by simp [h'])
        · rcases ih h' with h'' | h''
          · exact Or.inl h''
          · exact Or.inr (by simp [h''])

/-- Map insertion preserves distinctness of the keys. -/
theorem nodup_keys_setKey {α : Type} (k : String) (v : α)
    (l : List (String × α)) (h : (l.map Prod.fst).Nodup) :
    ((setKey k v l).map Prod.fst).Nodup := by
  induction l with
  | nil => simp [setKey]
  | cons kv rest ih =>
    cases kv with
    | mk k₁ v₁ =>
      rw [List.map_cons, List.nodup_cons] at h
      by_cases h₁ : k₁ = k
      · subst h₁
        simpa [setKey, List.nodup_cons] using h
      · have hstep : setKey k v ((k₁, v₁) :: rest) = (k₁, v₁) :: setKey k v rest := by
          simp [setKey, h₁]
        rw [hstep, List.map_cons, List.nodup_cons]
        refine ⟨fun hy => ?_, ih h.2⟩
        rcases mem_keys_setKey k k₁ v rest hy with h' | h'
        · exact h₁ h'
        · exact h.1 h'

/-- With distinct keys, at most one record — hence at most one connection
handle — is bound to a name. -/
theorem length_connsBoundTo_le_one (l : List (String × User)) (name : String)
    (h : (l.map Prod.fst).Nodup) :
    (connsBoundTo ⟨l⟩ name).length ≤ 1 := by
  induction l with
  | nil => simp [connsBoundTo]
  | cons kv rest ih =>
    rw [List.map_cons, List.nodup_cons] at h
    by_cases h₁ : kv.1 = name
    · have hrest : connsBoundTo ⟨rest⟩ name = [] := by
        subst h₁
        have : ∀ e ∈ rest, ¬ e.1 = kv.1 := fun e he hc => h.1 (hc ▸ List.mem_map_of_mem Prod.fst he)
        clear h ih
        induction rest with
        | nil => rfl
        | cons e rest' ih' =>
          have h₂ : ¬ e.1 = kv.1 := this e (List.mem_cons_self e rest')
          simp only [connsBoundTo] at *
          simp only [List.filterMap_cons, h₂, if_neg h₂]
          exact ih' (fun e' he' => this e' (List.mem_cons_of_mem _ he'))
      simp only [connsBoundTo, List.filterMap_cons, h₁, if_pos h₁] at *
      cases hc : kv.2.conn with
      | none => simp [hrest, connsBoundTo]
      | some c => simp [hrest]
    · simp only [connsBoundTo, List.filterMap_cons, if_neg h₁]
      exact ih h.2

/-- `Create` either rejects leaving the registry unchanged, or inserts the
new record under the requested name. -/
theorem create_state_cases (d : UserDB) (username : String) (conn r1 r2 : ℕ) :
    (d.Create username conn r1 r2).2 = d ∨
    ∃ u : User, (d.Create username conn r1 r2).2 = ⟨setKey username u d.users⟩ := by
  unfold UserDB.Create
  split_ifs <;> first | exact Or.inl rfl | exact Or.inr ⟨_, rfl⟩

/-- `Connect` either rejects leaving the registry unchanged, or stores an
updated record under the requested name. -/
theorem connect_state_cases (d : UserDB) (username : String) (conn : ℕ) :
    (d.Connect username conn).2 = d ∨
    ∃ u : User, (d.Connect username conn).2 = ⟨setKey username u d.users⟩ := by
  unfold UserDB.Connect
  rcases hg : getKey username d.users with _ | u
  · simp
  · rcases hc : u.conn with _ | c
    · simp only [hc]
      exact Or.inr ⟨_, rfl⟩
    · simp [hc]

/-- Every registry call preserves distinctness of the map keys. -/
theorem dbWF_applyOp (d : UserDB) (op : DBOp) (h : dbWF d) :
    dbWF (applyOp d op) := by
  cases op with
  | create username conn r1 r2 =>
    rcases create_state_cases d username conn r1 r2 with hc | ⟨u, hc⟩ <;>
      simp only [applyOp, hc]
    · exact h
    · exact nodup_keys_setKey _ _ _ h
  | connect username conn =>
    rcases connect_state_cases d username conn with hc | ⟨u, hc⟩ <;>
      simp only [applyOp, hc]
    · exact h
    · exact nodup_keys_setKey _ _ _ h
  | disconnect user =>
    exact nodup_keys_setKey _ _ _ h

/-- Call sequences preserve distinctness of the map keys. -/
theorem dbWF_applyOps (d : UserDB) (ops : List DBOp) (h : dbWF d) :
    dbWF (applyOps d ops) := by
  induction ops generalizing d with
  | nil => exact h
  | cons op rest ih => exact ih _ (dbWF_applyOp d op h)

/-- Events emitted by the exclusion loop all come from `u.Send`: they carry
`u`'s connection handle and the broadcast message. -/
theorem mem_sendPerExclusion (u : User) (msg : Message) (excl : List String)
    (e : SendEvent) (h : e ∈ u.sendPerExclusion msg excl) :
    u.conn = some e.1 ∧ e.2 = msg := by
  induction excl with
  | nil => simp [User.sendPerExclusion] at h
  | cons n rest ih =>
    by_cases hn : u.name = n
    · exact ih (by simpa [User.sendPerExclusion, hn] using h)
    · rcases List.mem_append.mp
        (by simpa [User.sendPerExclusion, hn] using h) with h' | h'
      · cases hc : u.conn with
        | none => simp [User.Send, hc] at h'
        | some c =>
          simp [User.Send, hc] at h'
          simp [h', hc]
      · exact ih h'

/-- A user whose connection handle is `nil` emits nothing from the
exclusion loop. -/
theorem sendPerExclusion_nil_conn (u : User) (msg : Message)
    (h : u.conn = none) (excl : List String) :
    u.sendPerExclusion msg excl = [] := by
  induction excl with
  | nil => rfl
  | cons n rest ih =>
    by_cases hn : u.name = n <;> simp [User.sendPerExclusion, hn, User.Send, h, ih]

/-- Deliveries of a single-exclusion broadcast to one socket, counted over
the registry: one per record whose name differs from the excluded name and
whose connection is that socket. -/
theorem countSends_broadcast_single (l : List (String × User)) (msg : Message)
    (ex : String) (c : ℕ) :
    countSends (UserDB.Broadcast ⟨l⟩ msg [ex]) c =
      l.countP (fun kv => !(kv.2.name == ex) && kv.2.conn == some c) := by
  induction l with
  | nil => rfl
  | cons kv rest ih =>
    have hsplit : UserDB.Broadcast ⟨kv :: rest⟩ msg [ex] =
        kv.2.sendPerExclusion msg [ex] ++ UserDB.Broadcast ⟨rest⟩ msg [ex] := by
      simp [UserDB.Broadcast]
    rw [hsplit, countSends, List.countP_append, List.countP_cons]
    rw [countSends] at ih
    rw [ih]
    by_cases hn : kv.2.name = ex
    · simp [User.sendPerExclusion, hn, countSends]
    · cases hc : kv.2.conn with
      | none => simp [User.sendPerExclusion, hn, User.Send, hc, countSends]
      | some c₀ =>
        by_cases hcc : c₀ = c <;>
          simp [User.sendPerExclusion, hn, User.Send, hc, countSends, hcc, Nat.add_comm]

/-- Delivery counts add up over concatenated event lists. -/
theorem countSends_append (a b : List SendEvent) (c : ℕ) :
    countSends (a ++ b) c = countSends a c + countSends b c := by
  simp [countSends, List.countP_append]

/-- A broadcast over a registry whose records all have `nil` connections
emits nothing. -/
theorem broadcast_all_disconnected (l : List (String × User)) (msg : Message)
    (excl : List String) (h : ∀ kv ∈ l, kv.2.conn = none) :
    UserDB.Broadcast ⟨l⟩ msg excl = [] := by
  induction l with
  | nil => rfl
  | cons kv rest ih =>
    have h₁ : kv.2.sendPerExclusion msg excl = [] :=
      sendPerExclusion_nil_conn _ _ (h kv (List.mem_cons_self kv rest)) excl
    have h₂ : UserDB.Broadcast ⟨rest⟩ msg excl = [] :=
      ih (fun kv' hkv' => h kv' (List.mem_cons_of_mem _ hkv'))
    simp only [UserDB.Broadcast] at *
    simp [h₁, h₂]

/-- Every event a broadcast emits is addressed to the connection handle of
some currently-connected record of the registry. -/
theorem mem_broadcast (l : List (String × User)) (msg : Message)
    (excl : List String) (e : SendEvent)
    (h : e ∈ UserDB.Broadcast ⟨l⟩ msg excl) :
    ∃ kv ∈ l, kv.2.conn = some e.1 := by
  induction l with
  | nil => simp [UserDB.Broadcast] at h
  | cons kv rest ih =>
    have hsplit : UserDB.Broadcast ⟨kv :: rest⟩ msg excl =
        kv.2.sendPerExclusion msg excl ++ UserDB.Broadcast ⟨rest⟩ msg excl := by
      simp [UserDB.Broadcast]
    rcases List.mem_append.mp (hsplit ▸ h) with h' | h'
    · exact ⟨kv, List.mem_cons_self kv rest, (mem_sendPerExclusion _ _ _ _ h').1⟩
    · obtain ⟨kv', hkv', hc⟩ := ih h'
      exact ⟨kv', List.mem_cons_of_mem _ hkv', hc⟩

/-! ## Claim theorems: the user registry -/

/-- Claim C1 (code bug): the source's `Broadcast` places `user.Send(msg)`
inside the loop over the exclusion names, so — contradicting both the claim
and `Broadcast`'s own doc comment — (i) with an empty exclusion list a
connected, non-excluded user receives zero copies instead of exactly one,
(ii) with two non-matching exclusion names a connected user receives two
copies, and (iii) a user in a two-name exclusion list still receives one
copy (skipped only for its own name). -/
theorem broadcast_loop_divergence :
    UserDB.Broadcast dbAlice ⟨"vitals", "x"⟩ [] = [] ∧
    countSends (UserDB.Broadcast dbAlice ⟨"vitals", "x"⟩ ["bob22", "carol"]) 0 = 2 ∧
    countSends (UserDB.Broadcast dbAliceBob ⟨"vitals", "x"⟩ ["alice1", "bob22"]) 1 = 1 := by
  decide

/-- Claim C4 (counterexample): with `alice1` and `bob22` both connected,
calling `Disconnect` twice in succession on `alice1` delivers the
`disconnect` notice to `bob22`'s socket twice in total, not exactly once —
each call unconditionally broadcasts. -/
theorem disconnect_twice_counterexample :
    countSends ((dbAliceBob.Disconnect aliceRec).2
      ++ ((dbAliceBob.Disconnect aliceRec).1.Disconnect aliceRec).2) 1 = 2 := by
  decide

/-- Claim C4 (amended): a second `Disconnect` on the same user leaves the
registry state unchanged and repeats the same broadcast, so two calls
deliver the `disconnect` notice twice (not once) to every other connected
user; after both calls the record persists with its connection handle
cleared, and `Connect` can re-attach a fresh connection under the same
name. -/
theorem disconnect_twice :
    ∀ (d : UserDB) (u : User),
    ((d.Disconnect u).1.Disconnect u).1 = (d.Disconnect u).1 ∧
    ((d.Disconnect u).1.Disconnect u).2 = (d.Disconnect u).2 ∧
    getKey u.name (d.Disconnect u).1.users = some { u with conn := none } ∧
    (∀ c' : ℕ, ((d.Disconnect u).1.Connect u.name c').1 =
      .ok { u with conn := some c' }) ∧
    (∀ cb : ℕ, countSends ((d.Disconnect u).2
        ++ ((d.Disconnect u).1.Disconnect u).2) cb =
      2 * (d.Disconnect u).1.users.countP
        (fun kv => !(kv.2.name == u.name) && kv.2.conn == some cb)) := by
  intro d u
  refine ⟨?_, ?_, ?_, ?_, ?_⟩
  · simp [UserDB.Disconnect, setKey_idem]
  · simp [UserDB.Disconnect, setKey_idem]
  · simp [UserDB.Disconnect, getKey_setKey_self]
  · intro c'
    simp [UserDB.Disconnect, UserDB.Connect, getKey_setKey_self]
  · intro cb
    simp only [UserDB.Disconnect, setKey_idem]
    rw [countSends_append, countSends_broadcast_single]
    omega

/-- Claim C9: `Update` never fails and unconditionally stores the record
under the user's name: the name maps to the given record afterwards, a name
absent from the registry is freshly appended (so `Update` can create users
that never went through `Create`), and no other name's binding changes. -/
theorem update_stores_unconditionally (d : UserDB) (u : User) :
    getKey u.name (d.Update u).users = some u ∧
    (getKey u.name d.users = none →
      (d.Update u).users = d.users ++ [(u.name, u)]) ∧
    (∀ k, ¬ k = u.name → getKey k (d.Update u).users = getKey k d.users) := by
  refine ⟨?_, ?_, ?_⟩
  · simp [UserDB.Update, getKey_setKey_self]
  · intro h
    simp [UserDB.Update, setKey_append_of_getKey_none _ _ _ h]
  · intro k hk
    simp [UserDB.Update, getKey_setKey_other _ _ _ _ (fun hc => hk hc.symm)]

/-- Witness for C9: updating `dbAlice` with the never-created `bobRec`
inserts a brand-new record. -/
theorem update_stores_unconditionally_witness :
    getKey "bob22" dbAlice.users = none ∧
    (dbAlice.Update bobRec).users = dbAlice.users ++ [("bob22", bobRec)] ∧
    getKey "bob22" (dbAlice.Update bobRec).users = some bobRec :=
  ⟨by decide,
   (update_stores_unconditionally dbAlice bobRec).2.1 (by decide),
   (update_stores_unconditionally dbAlice bobRec).1⟩

/-- Claim C10: `Send` on a user whose connection handle is `nil` returns
immediately without emitting any write; consequently a broadcast over a
registry is total, emits nothing when every record is disconnected, and
every event it does emit is addressed to a currently-connected record. -/
theorem send_nil_conn_noop (u : User) (msg : Message) :
    (u.conn = none → u.Send msg = []) ∧
    (∀ (d : UserDB) (excl : List String),
      (∀ kv ∈ d.users, kv.2.conn = none) → d.Broadcast msg excl = []) ∧
    (∀ (d : UserDB) (excl : List String) (e : SendEvent),
      e ∈ d.Broadcast msg excl → ∃ kv ∈ d.users, kv.2.conn = some e.1) := by
  refine ⟨?_, ?_, ?_⟩
  · intro h
    simp [User.Send, h]
  · intro d excl hall
    exact broadcast_all_disconnected d.users msg excl hall
  · intro d excl e he
    exact mem_broadcast d.users msg excl e he

/-- Witness for C10 at a registry holding one disconnected record. -/
theorem send_nil_conn_noop_witness :
    (⟨none, "carol77", false, ""⟩ : User).conn = none ∧
    User.Send ⟨none, "carol77", false, ""⟩ ⟨"vitals", "x"⟩ = [] ∧
    UserDB.Broadcast ⟨[("carol77", ⟨none, "carol77", false, ""⟩)]⟩
      ⟨"vitals", "x"⟩ [] = [] :=
  ⟨rfl,
   (send_nil_conn_noop ⟨none, "carol77", false, ""⟩ ⟨"vitals", "x"⟩).1 rfl,
   (send_nil_conn_noop ⟨none, "carol77", false, ""⟩ ⟨"vitals", "x"⟩).2.1
     ⟨[("carol77", ⟨none, "carol77", false, ""⟩)]⟩ [] (by decide)⟩

/-- Claim C5 (counterexample): Go's `len` counts bytes, not characters:
`"éééé"` has 4 characters (8 UTF-8 bytes), so — against the claim — `Create`
on an empty registry accepts it and inserts a record instead of returning a
minimum-length error. -/
theorem create_short_multibyte_accepted :
    ("éééé" : String).length = 4 ∧
    isErr (UserDB.Create ⟨[]⟩ "éééé" 7 0 0).1 = false ∧
    ¬ getKey "éééé" (UserDB.Create ⟨[]⟩ "éééé" 7 0 0).2.users = none := by
  decide

/-- Claim C5 (amended): `Create` returns an error exactly when the name is
shorter than 5 *UTF-8 bytes*, longer than 12 bytes, contains a rune that is
not a Unicode letter, Unicode number, underscore or hyphen, or equals the
name of an existing record; and in every failure case the registry map is
left completely unchanged.  (The range hypothesis confines usernames to the
code points on which the embedded `unicode.IsLetter`/`IsNumber` model is
exact.) -/
theorem create_validation (d : UserDB) (username : String) (conn r1 r2 : ℕ)
    (_hrange : ∀ c ∈ username.data, c.toNat ≤ 0xFF) :
    (isErr (d.Create username conn r1 r2).1 = true ↔
      utf8Len username < MinUsernameLength ∨
      MaxUsernameLength < utf8Len username ∨
      ¬ username.data.all validUsernameChar = true ∨
      d.users.any (fun kv => kv.2.name = username) = true) ∧
    (isErr (d.Create username conn r1 r2).1 = true →
      (d.Create username conn r1 r2).2 = d) := by
  constructor
  · unfold UserDB.Create
    split_ifs with h1 h2 h3 h4 <;>
      first
        | exact iff_of_true rfl (by tauto)
        | exact iff_of_false (by simp [isErr]) (by tauto)
  · unfold UserDB.Create
    split_ifs <;> simp [isErr]

/-- Witness for the C5 amended theorem: a 3-byte name is rejected and the
registry is untouched. -/
theorem create_validation_witness :
    (∀ c ∈ ("abc" : String).data, c.toNat ≤ 0xFF) ∧
    isErr (dbAlice.Create "abc" 5 0 0).1 = true ∧
    (dbAlice.Create "abc" 5 0 0).2 = dbAlice :=
  ⟨by decide,
   (create_validation dbAlice "abc" 5 0 0 (by decide)).1.mpr
     (Or.inl (by decide)),
   (create_validation dbAlice "abc" 5 0 0 (by decide)).2
     ((create_validation dbAlice "abc" 5 0 0 (by decide)).1.mpr
       (Or.inl (by decide)))⟩

/-- Claim C6: `Connect` fails with the user-not-found error when no record
exists, fails with the already-connected error — leaving the stored record
and its existing connection in place — when the record holds a live handle,
and otherwise attaches and stores the connection; and after any sequence of
`Create`/`Connect`/`Disconnect` calls from a well-formed registry, at most
one live connection handle is bound to any username. -/
theorem connect_at_most_one_connection (d : UserDB) (username : String)
    (conn : ℕ) :
    (getKey username d.users = none →
      d.Connect username conn = (.error "user not found in DB", d)) ∧
    (∀ (u : User) (c₀ : ℕ), getKey username d.users = some u →
      u.conn = some c₀ →
      d.Connect username conn = (.error "user already connected", d)) ∧
    (∀ u : User, getKey username d.users = some u → u.conn = none →
      d.Connect username conn =
        (.ok { u with conn := some conn },
          ⟨setKey username { u with conn := some conn } d.users⟩) ∧
      getKey username (setKey username { u with conn := some conn } d.users)
        = some { u with conn := some conn }) ∧
    (∀ ops : List DBOp, dbWF d → ∀ name : String,
      (connsBoundTo (applyOps d ops) name).length ≤ 1) := by
  refine ⟨?_, ?_, ?_, ?_⟩
  · intro h
    simp [UserDB.Connect, h]
  · intro u c₀ hu hc
    simp [UserDB.Connect, hu, hc]
  · intro u hu hc
    exact ⟨by simp [UserDB.Connect, hu, hc], getKey_setKey_self _ _ _⟩
  · intro ops hwf name
    exact length_connsBoundTo_le_one (applyOps d ops).users name
      (dbWF_applyOps d ops hwf)

/-- Witness for C6: a second connection for the connected `alice1` is
rejected with the registry unchanged, and a mixed call sequence keeps at
most one connection bound to the name. -/
theorem connect_at_most_one_connection_witness :
    getKey "alice1" dbAlice.users = some aliceRec ∧
    aliceRec.conn = some 0 ∧
    dbAlice.Connect "alice1" 5 = (.error "user already connected", dbAlice) ∧
    dbWF dbAlice ∧
    (connsBoundTo (applyOps dbAlice
      [DBOp.create "carol77" 2 0 0, DBOp.connect "alice1" 9,
       DBOp.disconnect aliceRec]) "alice1").length ≤ 1 :=
  ⟨by decide, rfl,
   (connect_at_most_one_connection dbAlice "alice1" 5).2.1 aliceRec 0
     (by decide) rfl,
   by decide,
   (connect_at_most_one_connection dbAlice "alice1" 5).2.2.2
     [DBOp.create "carol77" 2 0 0, DBOp.connect "alice1" 9,
      DBOp.disconnect aliceRec] (by decide) "alice1"⟩

/-! ## Claim theorems: projectiles and the client transport -/

/-- Claim C3 (counterexample): `Player.Update` scales the velocity by the
elapsed time in *deciseconds* (`float64(elapsed/time.Millisecond) / 100`),
not seconds: the spec's projectile (start `(0,0)`, velocity `(10,0)`,
ttl 5 s) sits at `(200, 0)` after 2 s, not at `(20, 0)`. -/
theorem projectile_decisecond_divergence :
    (updateProjectiles 2000000000 [proj0]).map Projectile.pos
      = [((200 : ℚ), (0 : ℚ))] ∧
    ¬ ((200 : ℚ), (0 : ℚ)) = ((20 : ℚ), (0 : ℚ)) := by
  constructor
  · simp [updateProjectiles, proj0, vecAdd, vecScaled, timeAlive,
      (by decide : ¬ ((2000000000 : ℤ) > 0 + 5000000000)),
      (by decide : ¬ ((2000000000 : ℤ) > 5000000000)),
      (by decide : Int.tdiv 2000000000 1000000 = 2000)]
    norm_num
  · simp only [Prod.mk.injEq, not_and]
    intro h
    norm_num at h

/-- Claim C3 (amended): a projectile is retained exactly while
`elapsed ≤ ttl` and dropped once `elapsed > ttl`; while retained its
position is recomputed from scratch as
`startPosition + velocity × (elapsedMilliseconds / 100)` — a pure function
of the start position, velocity and elapsed time (the stored `pos` field is
never read), but with the elapsed factor in units of 100 ms, not seconds. -/
theorem projectile_update_law (p : Projectile) (now : ℤ) :
    (p.spawnTime + p.ttl < now → updateProjectiles now [p] = []) ∧
    (now ≤ p.spawnTime + p.ttl →
      updateProjectiles now [p] =
        [{ p with pos := (vecAdd p.startPos
            (vecScaled p.velocity (timeAlive now p.spawnTime))) }]) ∧
    (∀ q : Vec, updateProjectiles now [{ p with pos := q }] =
      updateProjectiles now [p]) := by
  refine ⟨?_, ?_, ?_⟩
  · intro h
    simp [updateProjectiles, h]
  · intro h
    have h' : ¬ (now > p.spawnTime + p.ttl) := not_lt.mpr h
    simp [updateProjectiles, h']
  · intro q
    by_cases h : now > p.spawnTime + p.ttl <;> simp [updateProjectiles, h]

/-- Witness for the C3 amended theorem: the spec's projectile is retained
at 2 s and dropped at 6 s. -/
theorem projectile_update_law_witness :
    ((2000000000 : ℤ) ≤ proj0.spawnTime + proj0.ttl) ∧
    updateProjectiles 2000000000 [proj0] =
      [{ proj0 with pos := (vecAdd proj0.startPos
          (vecScaled proj0.velocity (timeAlive 2000000000 proj0.spawnTime))) }] ∧
    (proj0.spawnTime + proj0.ttl < (6000000000 : ℤ)) ∧
    updateProjectiles 6000000000 [proj0] = [] :=
  ⟨by decide,
   (projectile_update_law proj0 2000000000).2.1 (by decide),
   by decide,
   (projectile_update_law proj0 6000000000).1 (by decide)⟩

/-- Claim C8: on a failed write the client transport's consecutive-failure
counter increases by one and `Disconnect` is triggered exactly when the
counter has reached the threshold `maxSendFails = 10`; on a successful
write the counter is reset to zero and no disconnect is triggered. -/
theorem client_send_failure_counter (st : ClientState)
    (h : st.sendFailCounter + 1 < 2 ^ 64) :
    (clientSend st false).1.sendFailCounter = st.sendFailCounter + 1 ∧
    ((clientSend st false).2 = true ↔ maxSendFails ≤ st.sendFailCounter + 1) ∧
    (clientSend st true).1.sendFailCounter = 0 ∧
    (clientSend st true).2 = false := by
  have h' := h
  norm_num at h'
  unfold clientSend
  simp [Nat.mod_eq_of_lt h', h', decide_eq_true_eq]

/-- Witness for C8 at counter 9: the tenth consecutive failure reaches the
threshold and triggers the disconnect. -/
theorem client_send_failure_counter_witness :
    (9 : ℕ) + 1 < 2 ^ 64 ∧
    (clientSend ⟨9⟩ false).1.sendFailCounter = 9 + 1 ∧
    (clientSend ⟨9⟩ false).2 = true ∧
    (clientSend ⟨9⟩ true).1.sendFailCounter = 0 :=
  ⟨by norm_num,
   (client_send_failure_counter ⟨9⟩ (by norm_num)).1,
   (client_send_failure_counter ⟨9⟩ (by norm_num)).2.1.mpr (by decide),
   (client_send_failure_counter ⟨9⟩ (by norm_num)).2.2.1⟩

end ProceduralGame
